import Mathlib

/-!
Verification of the Padel-Court-Availability monitor.

We give a shallow embedding of the change-detection engine in
`src/monitor.py` (state threading made explicit, the availability
source and the venue registry passed as parameters), of the scraper's
time-label pattern in `src/scraper.py`, and of the notification
dispatcher in `src/notify.py`, and prove the spec's testable
properties about them.
-/

namespace PadelMonitor

/-- Persisted state: the JSON dict mapping the key string
`"club|date"` to the slot list last recorded for it (`state` in
`monitor.py`); modelled as a partial map. -/
abbrev StateMap := String → Option (List String)

/-- Computable lexicographic comparison of character lists by code
point; this is the ordering Python uses on `str`. -/
def charListLe : List Char → List Char → Bool
  | [], _ => true
  | _ :: _, [] => false
  | a :: as, b :: bs =>
    if a < b then true
    else if b < a then false
    else charListLe as bs

/-- Python string `<=` on two strings, by code-point lexicographic
comparison of their characters. -/
def strLe (s t : String) : Bool :=
  charListLe s.data t.data

/-- `slot_in_window` from `monitor.py`: Python's chained string
comparison `time_from <= slot_time <= time_to`. -/
def slot_in_window (slot_time time_from time_to : String) : Bool :=
  strLe time_from slot_time && strLe slot_time time_to

/-- One entry of the venue registry `CLUBS` (display name, base URL,
location token), as used by `build_booking_url` and the notification
text in `monitor.py`. -/
structure VenueConfig where
  name : String
  base_url : String
  location : String
deriving DecidableEq

/-- A watch entry from the configuration: clubs to monitor, weekday,
time window and horizon, as read by `run_check` in `monitor.py`. -/
structure Watch where
  clubs : List String
  weekday : String
  time_from : String
  time_to : String
  weeks_ahead : Nat
deriving DecidableEq

/-- Modelled from the spec: the environment of one `run_check` cycle.
The venue registry `CLUBS` is imported by `monitor.py` from the
scraper module but is absent from the sources (only
`PadelCasaScraper` exists there), so `clubs` follows the spec's
VenueConfig record; `fetch` is the availability source
(`PadelScraper(...).scrape_availability`), returning `none` when the
scrape raises; `datesFor` is `upcoming_dates(weekday, weeks_ahead)`
evaluated at the current clock; `playing_times` is the configured
duration. -/
structure Env where
  fetch : String → String → Option (List String)
  clubs : String → VenueConfig
  datesFor : Watch → List String
  playing_times : Nat

/-- The state key `f"{club}|{date}"` from `run_check`. -/
def state_key (club date : String) : String :=
  club ++ "|" ++ date

/-- `state[state_key] = matching`: pointwise update of the state map. -/
def stateSet (st : StateMap) (k : String) (v : List String) : StateMap :=
  fun q => if q = k then some v else st q

/-- The window filter of `run_check`:
`[s for s in result["available_slots"] if slot_in_window(s, time_from, time_to)]`. -/
def windowFilter (w : Watch) (slots : List String) : List String :=
  slots.filter (fun s => slot_in_window s w.time_from w.time_to)

/-- The diff of `run_check`:
`[s for s in matching if s not in previously_available]`. -/
def newSlots (previously_available matching : List String) : List String :=
  matching.filter (fun s => !(previously_available.contains s))

/-- Python's `str.capitalize` as applied to the weekday name. -/
def capitalize (s : String) : String :=
  match s.data with
  | [] => ""
  | c :: cs => String.mk (c.toUpper :: cs.map Char.toLower)

/-- Modelled from the spec: `build_booking_url` from `monitor.py`
substitutes base URL, location, date and duration into the venue's
URL template; the template text is absent from the sources together
with `CLUBS`, so its shape follows `PadelCasaScraper.build_url` in
`src/scraper.py`. -/
def build_booking_url (cfg : VenueConfig) (date : String) (playing_times : Nat) : String :=
  cfg.base_url ++ "#/court-booking/reservation?location=" ++ cfg.location
    ++ "&date=" ++ date ++ "&playingTimes=" ++ toString playing_times

/-- The notification intent dispatched by `run_check` when new slots
are found: display name, title, capitalized weekday, date, the list
of newly available labels, duration and the booking deep link. -/
structure Notification where
  club_name : String
  title : String
  weekday_display : String
  date : String
  slots : List String
  playing_times : Nat
  booking_url : String
deriving DecidableEq

/-- The per-pair observation record of one `run_check` iteration: the
window-filtered list `matching` and the diffed list `newly_available`. -/
structure PairResult where
  club : String
  date : String
  matching : List String
  newly : List String
deriving DecidableEq

/-- Result of processing one (club, date) pair of a watch. -/
structure PairStep where
  state : StateMap
  notif : Option Notification
  result : Option PairResult

/-- Result of a run of several pairs or watches of a cycle. -/
structure CycleOut where
  state : StateMap
  notifs : List Notification
  results : List PairResult

/-- The body of the inner loop of `run_check` for one (club, date)
pair: scrape (a raised exception yields `none` and leaves everything
unchanged), filter through the window, diff against
`state.get(state_key, [])`, send one notification if the diff is
non-empty, and set `state[state_key] = matching`. -/
def processPair (env : Env) (w : Watch) (st : StateMap) (club date : String) : PairStep :=
  match env.fetch club date with
  | none => ⟨st, none, none⟩
  | some slots =>
    let matching := windowFilter w slots
    let key := state_key club date
    let previously_available := (st key).getD []
    let newly_available := newSlots previously_available matching
    let notif : Option Notification :=
      if newly_available.isEmpty then none
      else some
        { club_name := (env.clubs club).name
        , title := "Padel slot opened - " ++ (env.clubs club).name
        , weekday_display := capitalize w.weekday
        , date := date
        , slots := newly_available
        , playing_times := env.playing_times
        , booking_url := build_booking_url (env.clubs club) date env.playing_times }
    ⟨stateSet st key matching, notif, some ⟨club, date, matching, newly_available⟩⟩

/-- Sequential processing of a list of (club, date) pairs of one
watch, threading the state and collecting notifications and records. -/
def runPairs (env : Env) (w : Watch) (st : StateMap) : List (String × String) → CycleOut
  | [] => ⟨st, [], []⟩
  | (c, d) :: rest =>
    let step := processPair env w st c d
    let out := runPairs env w step.state rest
    ⟨out.state, step.notif.toList ++ out.notifs, step.result.toList ++ out.results⟩

/-- The (club, date) pairs of one watch, in the order of the two
nested loops `for club in clubs: for i, date in enumerate(dates)`. -/
def watchPairs (env : Env) (w : Watch) : List (String × String) :=
  w.clubs.flatMap (fun c => (env.datesFor w).map (fun d => (c, d)))

/-- `run_check` from `monitor.py`: one evaluation cycle over all
watches, threading the persisted state. -/
def run_check (env : Env) : StateMap → List Watch → CycleOut
  | st, [] => ⟨st, [], []⟩
  | st, w :: ws =>
    let out := runPairs env w st (watchPairs env w)
    let rest := run_check env out.state ws
    ⟨rest.state, out.notifs ++ rest.notifs, out.results ++ rest.results⟩

/-- The table `WEEKDAYS` of `monitor.py`. -/
def WEEKDAYS : List (String × Nat) :=
  [("monday", 0), ("tuesday", 1), ("wednesday", 2), ("thursday", 3),
    ("friday", 4), ("saturday", 5), ("sunday", 6)]

/-- The lookup `WEEKDAYS[weekday_name]` of `upcoming_dates`. -/
def weekdayIndex (name : String) : Option Nat :=
  (WEEKDAYS.find? (fun p => p.1 == name)).map Prod.snd

/-- `upcoming_dates` from `monitor.py`, over calendar dates as day
numbers with day 0 a Monday, so that `d % 7` is Python's
`date.weekday()`: `days_until = (target - today.weekday()) % 7` (the
Python left-operand-signed modulo written with a `+ 7` offset),
`first = today + days_until`, then `weeks_ahead` dates seven days
apart, each kept only if it is not before today. -/
def upcoming_dates (target today weeks_ahead : Nat) : List Nat :=
  ((List.range weeks_ahead).map
      (fun i => today + (target + 7 - today % 7) % 7 + 7 * i)).filter
    (fun d => decide (today ≤ d))

/-- The empty persisted state (no state file yet). -/
def stEmpty : StateMap := fun _ => none

/-- A concrete venue for witness runs. -/
def venueEx : VenueConfig :=
  ⟨"PadelCasa Utrecht", "https://www.padelcasa.com/pages/utrecht", "Utrecht"⟩

/-- A concrete watch for witness runs. -/
def watchEx : Watch :=
  ⟨["padelcasa"], "tuesday", "17:00", "20:00", 1⟩

/-- A cycle environment whose source reports 18:00 available. -/
def envOn : Env :=
  ⟨fun _ _ => some ["18:00"], fun _ => venueEx, fun _ => ["2025-01-07"], 90⟩

/-- A cycle environment whose source reports nothing available. -/
def envOff : Env :=
  ⟨fun _ _ => some [], fun _ => venueEx, fun _ => ["2025-01-07"], 90⟩

/-- A cycle environment whose source always raises. -/
def envFail : Env :=
  ⟨fun _ _ => none, fun _ => venueEx, fun _ => ["2025-01-07"], 90⟩

/-- First concrete cycle: the 18:00 slot is available. -/
def cyc1 : CycleOut := run_check envOn stEmpty [watchEx]

/-- Second concrete cycle: the slot has been booked away. -/
def cyc2 : CycleOut := run_check envOff cyc1.state [watchEx]

/-- Third concrete cycle: the slot is available again. -/
def cyc3 : CycleOut := run_check envOn cyc2.state [watchEx]

/-- An externally visible step of the fetch loop of `run_check`:
either a `time.sleep` of the given number of seconds or one
availability-source fetch. -/
inductive Event where
  | sleep (secs : Nat)
  | fetch (club date : String)
deriving DecidableEq

/-- Whether an event is a fetch. -/
def isFetch : Event → Bool
  | .fetch _ _ => true
  | .sleep _ => false

/-- A trace has spaced fetches when no two fetch events are adjacent:
some sleep lies between any two consecutive fetches. -/
def wellSpaced : List Event → Bool
  | [] => true
  | [_] => true
  | a :: b :: rest => !(isFetch a && isFetch b) && wellSpaced (b :: rest)

/-- Whether every sleep of a trace lasts at least two seconds. -/
def sleepsAtLeastTwo (t : List Event) : Bool :=
  t.all (fun e => match e with
    | .sleep u => decide (2 ≤ u)
    | .fetch _ _ => true)

/-- The loop `for i, date in enumerate(dates)` of `run_check` for one
club, carrying the enumerate index: `if i > 0: time.sleep(2)`, then
the fetch. -/
def clubTraceAux (club : String) : Nat → List String → List Event
  | _, [] => []
  | i, d :: ds =>
    (if 0 < i then [Event.sleep 2] else [])
      ++ Event.fetch club d :: clubTraceAux club (i + 1) ds

/-- The fetch/sleep trace of one club of a watch. -/
def clubTrace (club : String) (dates : List String) : List Event :=
  clubTraceAux club 0 dates

/-- The fetch/sleep trace of one watch: the nested loops
`for club in clubs: for i, date in enumerate(dates)` — the enumerate
index, and with it the sleep guard, restarts at 0 for every club. -/
def watchTrace (clubs dates : List String) : List Event :=
  clubs.flatMap (fun c => clubTrace c dates)

/-- An HTTP POST request as issued by `send_notification` in
`notify.py`: target URL, body, headers and request timeout. -/
structure HttpRequest where
  url : String
  body : String
  headers : List (String × String)
  timeout : Nat
deriving DecidableEq

/-- The visible outcome of one `send_notification` call. -/
inductive SendOutcome where
  | sent
  | failed (err : String)
deriving DecidableEq

/-- What one `send_notification` call did: the requests attempted,
the outcome, and the log lines written. -/
structure SendResult where
  requests : List HttpRequest
  outcome : SendOutcome
  logs : List String
deriving DecidableEq

/-- Python's `str.rstrip` restricted to one character: drop every
trailing occurrence of `c`. -/
def rstripChar (s : String) (c : Char) : String :=
  String.mk ((s.data.reverse.dropWhile (fun ch => ch == c)).reverse)

/-- The request `send_notification` builds: URL
`f"{server.rstrip('/')}/{topic}"`, the message as body, headers
Title, Priority and Tags plus Click when a click URL is given, and
`timeout=10`. -/
def mkRequest (topic title message server priority tags : String)
    (click_url : Option String) : HttpRequest :=
  { url := rstripChar server '/' ++ "/" ++ topic
  , body := message
  , headers := [("Title", title), ("Priority", priority), ("Tags", tags)]
      ++ (match click_url with | some u => [("Click", u)] | none => [])
  , timeout := 10 }

/-- The `try` body of `send_notification`: `requests.post(...)`
followed by `resp.raise_for_status()` — the post collaborator either
signals a request exception or returns a status code, and a status of
400 or above raises `HTTPError`. -/
def attemptPost (post : HttpRequest → Except String Nat) (req : HttpRequest) :
    Except String Unit :=
  match post req with
  | .error e => .error e
  | .ok status => if 400 ≤ status then .error "HTTPError" else .ok ()

/-- `send_notification` from `notify.py`: build headers and URL, make
exactly one POST attempt with a 10-second timeout; on success log
success, on a request exception log the error and swallow it — the
caller always receives a plain `SendResult`, never an exception. -/
def send_notification (post : HttpRequest → Except String Nat)
    (topic title message server priority tags : String)
    (click_url : Option String) : SendResult :=
  let req := mkRequest topic title message server priority tags click_url
  match attemptPost post req with
  | .ok _ => ⟨[req], .sent, ["Notification sent: " ++ title]⟩
  | .error e => ⟨[req], .failed e, ["Failed to send notification: " ++ e]⟩

/-- The anchored pattern `^\d{1,2}:\d{2}$` of
`PadelCasaScraper.scrape_availability` in `src/scraper.py`: one or
two digits, a colon, exactly two digits. -/
def time_pattern_match (s : String) : Bool :=
  match s.data with
  | [a, b, c, d] => a.isDigit && (b == ':') && c.isDigit && d.isDigit
  | [a, b, c, d, e] => a.isDigit && b.isDigit && (c == ':') && d.isDigit && e.isDigit
  | _ => false

/-- Minutes after midnight denoted by a time label of the pattern's
shape (the chronological reading of the label). -/
def labelMinutes (s : String) : Option Nat :=
  match s.data with
  | [a, b, c, d] =>
    if a.isDigit && (b == ':') && c.isDigit && d.isDigit then
      some ((a.toNat - 48) * 60 + (c.toNat - 48) * 10 + (d.toNat - 48))
    else none
  | [a, b, c, d, e] =>
    if a.isDigit && b.isDigit && (c == ':') && d.isDigit && e.isDigit then
      some (((a.toNat - 48) * 10 + (b.toNat - 48)) * 60
        + (d.toNat - 48) * 10 + (e.toNat - 48))
    else none
  | _ => none

theorem charListLe_iff_not_lex (as : List Char) :
    ∀ bs, charListLe as bs = true ↔ ¬ List.Lex (· < ·) bs as := by
  induction as with
  | nil =>
    intro bs
    apply iff_of_true rfl
    intro h
    cases h
  | cons a as ih =>
    intro bs
    cases bs with
    | nil =>
      apply iff_of_false
      · simp [charListLe]
      · intro h
        exact h List.Lex.nil
    | cons b bs =>
      by_cases hab : a < b
      · apply iff_of_true
        · simp [charListLe, hab]
        · intro h
          cases h with
          | rel h => exact absurd hab (lt_asymm h)
          | cons h => exact lt_irrefl a hab
      · by_cases hba : b < a
        · apply iff_of_false
          · simp [charListLe, hab, hba]
          · intro h
            exact h (List.Lex.rel hba)
        · have heq : a = b := le_antisymm (not_lt.mp hba) (not_lt.mp hab)
          subst heq
          have hstep : charListLe (a :: as) (a :: bs) = charListLe as bs := by
            simp [charListLe]
          rw [hstep, ih bs]
          constructor
          · intro h hlt
            cases hlt with
            | rel h₂ => exact lt_irrefl a h₂
            | cons h₂ => exact h h₂
          · intro h hlt
            exact h (List.Lex.cons hlt)

/-- The Bool-valued comparison agrees with the string order. -/
theorem strLe_iff (s t : String) : strLe s t = true ↔ s ≤ t := by
  rw [String.le_iff_toList_le, ← not_lt]
  exact charListLe_iff_not_lex s.data t.data

/-- C5: the window-membership test is the inclusive lexicographic-string
comparison: the three example evaluations hold, and in general
`slot_in_window t a b = true` exactly when `a ≤ t` and `t ≤ b` under
string ordering. -/
theorem slot_in_window_spec :
    (slot_in_window "18:00" "17:00" "19:00" = true
      ∧ slot_in_window "17:00" "17:00" "19:00" = true
      ∧ slot_in_window "19:01" "17:00" "19:00" = false)
    ∧ ∀ t a b : String, slot_in_window t a b = true ↔ a ≤ t ∧ t ≤ b := by
  refine ⟨by decide, ?_⟩
  intro t a b
  simp [slot_in_window, strLe_iff]

/-- C1: after a successfully fetched (club, date) pair is processed,
the persisted entry for its key is exactly the window-filtered list
`matching` of that cycle (full replacement, not a union with the
previous value), regardless of whether the newly-available list was
empty; consequently, in the concrete three-cycle run where the 18:00
slot is available, then absent, then available again, it is reported
as new in cycles 1 and 3. -/
theorem state_full_replacement (env : Env) (w : Watch) (st : StateMap)
    (club date : String) (slots : List String)
    (hf : env.fetch club date = some slots) :
    (processPair env w st club date).state (state_key club date)
      = some (windowFilter w slots)
    ∧ (cyc1.results.map PairResult.newly = [["18:00"]]
        ∧ cyc2.results.map PairResult.newly = [[]]
        ∧ cyc3.results.map PairResult.newly = [["18:00"]]) := by
  constructor
  · simp [processPair, hf, stateSet]
  · decide

/-- Witness for C1: the replacement property evaluated on a concrete
environment, watch, state and slot list. -/
theorem state_full_replacement_witness :
    envOn.fetch "padelcasa" "2025-01-07" = some ["18:00"]
    ∧ ((processPair envOn watchEx stEmpty "padelcasa" "2025-01-07").state
          (state_key "padelcasa" "2025-01-07") = some (windowFilter watchEx ["18:00"])
        ∧ (cyc1.results.map PairResult.newly = [["18:00"]]
            ∧ cyc2.results.map PairResult.newly = [[]]
            ∧ cyc3.results.map PairResult.newly = [["18:00"]])) :=
  ⟨rfl, state_full_replacement envOn watchEx stEmpty "padelcasa" "2025-01-07" ["18:00"] rfl⟩

/-- C2: for a (club, date) pair whose key is absent from the state
mapping, the previous-slot lookup yields the empty list, and hence on
a successful fetch every slot of the window-filtered list `matching`
is reported as newly available. -/
theorem no_history_all_new (env : Env) (w : Watch) (st : StateMap)
    (club date : String) (slots : List String)
    (hf : env.fetch club date = some slots)
    (habs : st (state_key club date) = none) :
    (st (state_key club date)).getD [] = []
    ∧ (processPair env w st club date).result
        = some ⟨club, date, windowFilter w slots, windowFilter w slots⟩ := by
  constructor
  · rw [habs]
    rfl
  · simp [processPair, hf, habs, newSlots]

/-- Witness for C2: the no-history property evaluated on a concrete
environment, watch and empty state. -/
theorem no_history_all_new_witness :
    envOn.fetch "padelcasa" "2025-01-07" = some ["18:00"]
    ∧ stEmpty (state_key "padelcasa" "2025-01-07") = none
    ∧ ((stEmpty (state_key "padelcasa" "2025-01-07")).getD [] = []
        ∧ (processPair envOn watchEx stEmpty "padelcasa" "2025-01-07").result
            = some ⟨"padelcasa", "2025-01-07", windowFilter watchEx ["18:00"],
                windowFilter watchEx ["18:00"]⟩) :=
  ⟨rfl, rfl, no_history_all_new envOn watchEx stEmpty "padelcasa" "2025-01-07" ["18:00"] rfl rfl⟩

/-- C6: when the fetch for one (club, date) pair raises, that pair is
skipped with no state mutation, no notification and no record, the
remaining pairs of the same watch are evaluated exactly as if the
failing pair were absent, and the subsequent watches of the cycle see
the identical state. -/
theorem fetch_failure_isolated (env : Env) (w : Watch) (c d : String)
    (hf : env.fetch c d = none) :
    (∀ st : StateMap, processPair env w st c d = ⟨st, none, none⟩)
    ∧ (∀ (st : StateMap) (L₁ L₂ : List (String × String)),
        runPairs env w st (L₁ ++ (c, d) :: L₂) = runPairs env w st (L₁ ++ L₂))
    ∧ (∀ (st : StateMap) (L₁ L₂ : List (String × String)) (ws : List Watch),
        run_check env (runPairs env w st (L₁ ++ (c, d) :: L₂)).state ws
          = run_check env (runPairs env w st (L₁ ++ L₂)).state ws) := by
  have h1 : ∀ st : StateMap, processPair env w st c d = ⟨st, none, none⟩ := by
    intro st
    simp [processPair, hf]
  have h2 : ∀ (st : StateMap) (L₁ L₂ : List (String × String)),
      runPairs env w st (L₁ ++ (c, d) :: L₂) = runPairs env w st (L₁ ++ L₂) := by
    intro st L₁ L₂
    induction L₁ generalizing st with
    | nil =>
      simp [runPairs, h1]
    | cons p rest ih =>
      obtain ⟨pc, pd⟩ := p
      simp only [List.cons_append, runPairs, List.append_eq]
      rw [ih]
  exact ⟨h1, h2, fun st L₁ L₂ ws => by rw [h2 st L₁ L₂]⟩

/-- Witness for C6: the skip-with-no-mutation property evaluated on a
concrete always-failing environment. -/
theorem fetch_failure_isolated_witness :
    envFail.fetch "padelcasa" "2025-01-07" = none
    ∧ processPair envFail watchEx stEmpty "padelcasa" "2025-01-07" = ⟨stEmpty, none, none⟩ :=
  ⟨rfl, (fetch_failure_isolated envFail watchEx "padelcasa" "2025-01-07" rfl).1 stEmpty⟩

/-- C7: for a successfully fetched pair a notification is dispatched
exactly when the newly-available list is non-empty, at most one per
pair, and it carries the venue display name, the capitalized weekday
and the date, the newly-available labels (sorted whenever the source
lists its slots sorted, as the scraper does), the configured duration
and the deep link built by substituting location, date and duration
into the venue's URL template. -/
theorem one_notification_iff_new (env : Env) (w : Watch) (st : StateMap)
    (club date : String) (slots : List String)
    (hf : env.fetch club date = some slots)
    (hs : List.Sorted (· ≤ ·) slots) :
    ((processPair env w st club date).notif.isSome = true
        ↔ newSlots ((st (state_key club date)).getD []) (windowFilter w slots) ≠ [])
    ∧ (processPair env w st club date).notif.toList.length ≤ 1
    ∧ List.Sorted (· ≤ ·)
        (newSlots ((st (state_key club date)).getD []) (windowFilter w slots))
    ∧ ∀ n, (processPair env w st club date).notif = some n →
        n = ⟨(env.clubs club).name,
            "Padel slot opened - " ++ (env.clubs club).name,
            capitalize w.weekday, date,
            newSlots ((st (state_key club date)).getD []) (windowFilter w slots),
            env.playing_times,
            build_booking_url (env.clubs club) date env.playing_times⟩ := by
  have hp : (processPair env w st club date).notif =
      if (newSlots ((st (state_key club date)).getD []) (windowFilter w slots)).isEmpty
        then none
        else some ⟨(env.clubs club).name,
          "Padel slot opened - " ++ (env.clubs club).name,
          capitalize w.weekday, date,
          newSlots ((st (state_key club date)).getD []) (windowFilter w slots),
          env.playing_times,
          build_booking_url (env.clubs club) date env.playing_times⟩ := by
    simp [processPair, hf]
  rw [hp]
  refine ⟨?_, ?_, ?_, ?_⟩
  · by_cases hN :
      (newSlots ((st (state_key club date)).getD []) (windowFilter w slots)).isEmpty
    · rw [if_pos hN]
      simp [List.isEmpty_iff.mp hN]
    · rw [if_neg hN]
      simpa using fun h => hN (List.isEmpty_iff.mpr h)
  · by_cases hN :
      (newSlots ((st (state_key club date)).getD []) (windowFilter w slots)).isEmpty
    · rw [if_pos hN]
      simp
    · rw [if_neg hN]
      simp
  · exact (hs.filter _).filter _
  · intro n hn
    by_cases hN :
      (newSlots ((st (state_key club date)).getD []) (windowFilter w slots)).isEmpty
    · rw [if_pos hN] at hn
      cases hn
    · rw [if_neg hN] at hn
      exact (Option.some_injective _ hn).symm

/-- Witness for C7: the notification property evaluated on a concrete
environment, watch and empty state. -/
theorem one_notification_iff_new_witness :
    envOn.fetch "padelcasa" "2025-01-07" = some ["18:00"]
    ∧ List.Sorted (· ≤ ·) ["18:00"]
    ∧ (((processPair envOn watchEx stEmpty "padelcasa" "2025-01-07").notif.isSome = true
          ↔ newSlots ((stEmpty (state_key "padelcasa" "2025-01-07")).getD [])
              (windowFilter watchEx ["18:00"]) ≠ [])
        ∧ (processPair envOn watchEx stEmpty "padelcasa" "2025-01-07").notif.toList.length ≤ 1
        ∧ List.Sorted (· ≤ ·)
            (newSlots ((stEmpty (state_key "padelcasa" "2025-01-07")).getD [])
              (windowFilter watchEx ["18:00"]))
        ∧ ∀ n, (processPair envOn watchEx stEmpty "padelcasa" "2025-01-07").notif = some n →
            n = ⟨(envOn.clubs "padelcasa").name,
                "Padel slot opened - " ++ (envOn.clubs "padelcasa").name,
                capitalize watchEx.weekday, "2025-01-07",
                newSlots ((stEmpty (state_key "padelcasa" "2025-01-07")).getD [])
                  (windowFilter watchEx ["18:00"]),
                envOn.playing_times,
                build_booking_url (envOn.clubs "padelcasa") "2025-01-07" envOn.playing_times⟩) :=
  ⟨rfl, List.sorted_singleton "18:00",
    one_notification_iff_new envOn watchEx stEmpty "padelcasa" "2025-01-07" ["18:00"] rfl
      (List.sorted_singleton "18:00")⟩

theorem newSlots_self (l : List String) : newSlots l l = [] := by
  simp [newSlots]

/-- A list of pairs none of which has key `k` leaves the state at `k`
untouched. -/
theorem runPairs_state_frame (env : Env) (w : Watch) :
    ∀ (L : List (String × String)) (st : StateMap) (k : String),
      (∀ p ∈ L, state_key p.1 p.2 ≠ k) →
      (runPairs env w st L).state k = st k := by
  intro L
  induction L with
  | nil =>
    intro st k _
    rfl
  | cons p rest ih =>
    intro st k hk
    obtain ⟨c, d⟩ := p
    show (runPairs env w (processPair env w st c d).state rest).state k = st k
    rw [ih _ _ (fun q hq => hk q (List.mem_cons_of_mem _ hq))]
    have hne : k ≠ state_key c d :=
      fun h => hk (c, d) (List.mem_cons_self _ _) h.symm
    cases hfc : env.fetch c d with
    | none => simp [processPair, hfc]
    | some slots => simp [processPair, hfc, stateSet, hne]

/-- After running a pair list whose keys determine the pairs, the
state at the key of a successfully fetched member pair is exactly its
window-filtered slot list. -/
theorem runPairs_state_of_mem (env : Env) (w : Watch) :
    ∀ (L : List (String × String)) (st : StateMap) (c d : String) (slots : List String),
      (c, d) ∈ L →
      env.fetch c d = some slots →
      (∀ q ∈ L, state_key q.1 q.2 = state_key c d → q = (c, d)) →
      (runPairs env w st L).state (state_key c d) = some (windowFilter w slots) := by
  intro L
  induction L with
  | nil =>
    intro st c d slots h
    cases h
  | cons p rest ih =>
    intro st c d slots hmem hf huniq
    obtain ⟨a, b⟩ := p
    show (runPairs env w (processPair env w st a b).state rest).state (state_key c d)
      = some (windowFilter w slots)
    by_cases hr : (c, d) ∈ rest
    · exact ih _ c d slots hr hf (fun q hq => huniq q (List.mem_cons_of_mem _ hq))
    · have hcd : (a, b) = (c, d) := by
        rcases List.mem_cons.mp hmem with h | h
        · exact h.symm
        · exact absurd h hr
      injection hcd with ha hb
      subst ha
      subst hb
      rw [runPairs_state_frame env w rest _ _
        (fun q hq hkey => hr ((huniq q (List.mem_cons_of_mem _ hq) hkey) ▸ hq))]
      simp [processPair, hf, stateSet]

/-- If the incoming state already records, for every pair of the
list, exactly the window-filtered list its fetch would produce, then
every record produced by the run has an empty newly-available list. -/
theorem runPairs_results_newly_nil (env : Env) (w : Watch) :
    ∀ (L : List (String × String)) (st : StateMap),
      (∀ p ∈ L, ∀ slots, env.fetch p.1 p.2 = some slots →
        st (state_key p.1 p.2) = some (windowFilter w slots)) →
      (∀ p ∈ L, ∀ q ∈ L, state_key p.1 p.2 = state_key q.1 q.2 → p = q) →
      ∀ r ∈ (runPairs env w st L).results, r.newly = [] := by
  intro L
  induction L with
  | nil =>
    intro st _ _ r hr
    cases hr
  | cons p rest ih =>
    intro st hgood huniq r hr
    obtain ⟨c, d⟩ := p
    have hr' : r ∈ (processPair env w st c d).result.toList
        ∨ r ∈ (runPairs env w (processPair env w st c d).state rest).results :=
      List.mem_append.mp hr
    cases hfc : env.fetch c d with
    | none =>
      have hstep : processPair env w st c d = ⟨st, none, none⟩ := by
        simp [processPair, hfc]
      rw [hstep] at hr'
      rcases hr' with h | h
      · cases h
      · exact ih st (fun q hq => hgood q (List.mem_cons_of_mem _ hq))
          (fun q hq q2 hq2 => huniq q (List.mem_cons_of_mem _ hq) q2 (List.mem_cons_of_mem _ hq2))
          r h
    | some slots =>
      have hprev : st (state_key c d) = some (windowFilter w slots) :=
        hgood (c, d) (List.mem_cons_self _ _) slots hfc
      have hres : (processPair env w st c d).result
          = some ⟨c, d, windowFilter w slots, []⟩ := by
        simp [processPair, hfc, hprev, newSlots_self]
      have hstate : (processPair env w st c d).state
          = stateSet st (state_key c d) (windowFilter w slots) := by
        simp [processPair, hfc]
      rcases hr' with h | h
      · rw [hres] at h
        simp only [Option.toList] at h
        obtain rfl := List.mem_singleton.mp h
        rfl
      · rw [hstate] at h
        refine ih _ ?_
          (fun q hq q2 hq2 => huniq q (List.mem_cons_of_mem _ hq) q2 (List.mem_cons_of_mem _ hq2))
          r h
        intro q hq slots2 hf2
        obtain ⟨x, y⟩ := q
        by_cases hkey : state_key x y = state_key c d
        · have hxy : (x, y) = (c, d) :=
            huniq (x, y) (List.mem_cons_of_mem _ hq) (c, d) (List.mem_cons_self _ _) hkey
          injection hxy with hx hy
          subst hx
          subst hy
          have hslots : slots2 = slots := by
            rw [hfc] at hf2
            exact (Option.some_injective _ hf2).symm
          subst hslots
          simp [stateSet]
        · simp only [stateSet, if_neg hkey]
          exact hgood (x, y) (List.mem_cons_of_mem _ hq) slots2 hf2

/-- The last occurrence of a separator splits a list uniquely. -/
theorem append_sep_inj {α : Type} (sep : α) :
    ∀ (l₁ : List α) {r₁ : List α} (l₂ : List α) {r₂ : List α},
      l₁ ++ sep :: r₁ = l₂ ++ sep :: r₂ → sep ∉ r₁ → sep ∉ r₂ →
      l₁ = l₂ ∧ r₁ = r₂ := by
  intro l₁
  induction l₁ with
  | nil =>
    intro r₁ l₂ r₂ h h₁ h₂
    cases l₂ with
    | nil =>
      injection h with _ ht
      exact ⟨rfl, ht⟩
    | cons b t =>
      injection h with hb ht
      exact absurd (by rw [ht]; exact List.mem_append_right _ (List.mem_cons_self _ _)) h₁
  | cons a t₁ ih =>
    intro r₁ l₂ r₂ h h₁ h₂
    cases l₂ with
    | nil =>
      injection h with hb ht
      exact absurd (by rw [← ht]; exact List.mem_append_right _ (List.mem_cons_self _ _)) h₂
    | cons b t₂ =>
      injection h with hb ht
      obtain ⟨he, hr⟩ := ih t₂ ht h₁ h₂
      exact ⟨by rw [hb, he], hr⟩

/-- When dates contain no pipe character, the serialized state key
determines club and date. -/
theorem state_key_inj {c₁ d₁ c₂ d₂ : String}
    (h₁ : '|' ∉ d₁.data) (h₂ : '|' ∉ d₂.data)
    (h : state_key c₁ d₁ = state_key c₂ d₂) : c₁ = c₂ ∧ d₁ = d₂ := by
  have hd : c₁.data ++ '|' :: d₁.data = c₂.data ++ '|' :: d₂.data := by
    have hdata := congrArg String.data h
    simpa [state_key, String.data_append, List.append_assoc] using hdata
  obtain ⟨hc, hdd⟩ := append_sep_inj '|' c₁.data c₂.data hd h₁ h₂
  exact ⟨String.ext hc, String.ext hdd⟩

/-- The pairs of one watch have pairwise-injective state keys as soon
as no date of the watch contains a pipe character. -/
theorem watchPairs_key_uniq (env : Env) (w : Watch)
    (hd : ∀ dd ∈ env.datesFor w, '|' ∉ dd.data) :
    ∀ p ∈ watchPairs env w, ∀ q ∈ watchPairs env w,
      state_key p.1 p.2 = state_key q.1 q.2 → p = q := by
  intro p hp q hq hkey
  obtain ⟨cp, hcp, hp2⟩ := List.mem_flatMap.mp hp
  obtain ⟨dp, hdp, hp3⟩ := List.mem_map.mp hp2
  obtain ⟨cq, hcq, hq2⟩ := List.mem_flatMap.mp hq
  obtain ⟨dq, hdq, hq3⟩ := List.mem_map.mp hq2
  subst hp3
  subst hq3
  obtain ⟨hc, hdd⟩ := state_key_inj (hd dp hdp) (hd dq hdq) hkey
  have hc' : cp = cq := hc
  have hd' : dp = dq := hdd
  rw [hc', hd']

/-- C3: with a single watch, running one cycle and then a second
cycle over the identical availability source yields an empty
newly-available list for every (club, date) record of the second run,
because the first run left each key's entry equal to that run's
window-filtered list. The hypothesis that no expanded date contains
a pipe reflects the `YYYY-MM-DD` shape `upcoming_dates` produces. -/
theorem second_run_no_new (env : Env) (w : Watch) (st0 : StateMap)
    (hd : ∀ dd ∈ env.datesFor w, '|' ∉ dd.data) :
    ∀ r ∈ (run_check env (run_check env st0 [w]).state [w]).results, r.newly = [] := by
  have huniq := watchPairs_key_uniq env w hd
  have hstate1 : ∀ p ∈ watchPairs env w, ∀ slots, env.fetch p.1 p.2 = some slots →
      (run_check env st0 [w]).state (state_key p.1 p.2) = some (windowFilter w slots) := by
    intro p hp slots hf
    obtain ⟨c, d⟩ := p
    show (runPairs env w st0 (watchPairs env w)).state (state_key c d)
      = some (windowFilter w slots)
    exact runPairs_state_of_mem env w _ st0 c d slots hp hf
      (fun q hq hk => huniq q hq (c, d) hp hk)
  intro r hr
  have hr2 : r ∈ (runPairs env w (run_check env st0 [w]).state (watchPairs env w)).results := by
    have hrw : (run_check env (run_check env st0 [w]).state [w]).results
        = (runPairs env w (run_check env st0 [w]).state (watchPairs env w)).results ++ [] := rfl
    rw [hrw, List.append_nil] at hr
    exact hr
  exact runPairs_results_newly_nil env w (watchPairs env w) _ hstate1 huniq r hr2

/-- Witness for C3: the diff-idempotence property evaluated on the
concrete environment with a singleton watch. -/
theorem second_run_no_new_witness :
    (∀ dd ∈ envOn.datesFor watchEx, '|' ∉ dd.data)
    ∧ ∀ r ∈ (run_check envOn (run_check envOn stEmpty [watchEx]).state [watchEx]).results,
        r.newly = [] :=
  ⟨by decide, second_run_no_new envOn watchEx stEmpty (by decide)⟩

/-- A value produced by the weekday table lookup is below 7. -/
theorem weekdayIndex_lt_seven (name : String) (target : Nat)
    (h : weekdayIndex name = some target) : target < 7 := by
  obtain ⟨p, hp, hsnd⟩ := Option.map_eq_some'.mp h
  have hmem := List.mem_of_find?_eq_some hp
  have hall : ∀ q ∈ WEEKDAYS, q.2 < 7 := by decide
  rw [← hsnd]
  exact hall p hmem

/-- C4: for every valid weekday name and positive horizon `n`, date
expansion returns exactly `n` dates, in strictly increasing order,
each falling on the requested weekday and each not before today, and
the first date is today itself when today already is the requested
weekday. -/
theorem upcoming_dates_spec (name : String) (target : Nat)
    (hname : weekdayIndex name = some target) (today n : Nat) (hn : 0 < n) :
    (upcoming_dates target today n).length = n
    ∧ List.Pairwise (· < ·) (upcoming_dates target today n)
    ∧ (∀ d ∈ upcoming_dates target today n, d % 7 = target ∧ today ≤ d)
    ∧ (today % 7 = target → (upcoming_dates target today n).head? = some today) := by
  have htarget := weekdayIndex_lt_seven name target hname
  have hub : upcoming_dates target today n
      = (List.range n).map (fun i => today + (target + 7 - today % 7) % 7 + 7 * i) := by
    apply List.filter_eq_self.mpr
    intro d hd
    obtain ⟨i, _, rfl⟩ := List.mem_map.mp hd
    simp only [decide_eq_true_eq]
    omega
  refine ⟨?_, ?_, ?_, ?_⟩
  · rw [hub, List.length_map, List.length_range]
  · rw [hub, List.pairwise_map]
    exact List.Pairwise.imp (fun hab => by omega) (List.sorted_lt_range n)
  · intro d hd
    rw [hub] at hd
    obtain ⟨i, _, rfl⟩ := List.mem_map.mp hd
    constructor
    · omega
    · omega
  · intro ht
    have hoff : (target + 7 - today % 7) % 7 = 0 := by omega
    obtain ⟨m, rfl⟩ := Nat.exists_eq_succ_of_ne_zero (Nat.pos_iff_ne_zero.mp hn)
    rw [hub, List.range_succ_eq_map, List.map_cons]
    simp [hoff]

/-- Witness for C4: date expansion evaluated for "tuesday" from a
Thursday (day 3), two weeks ahead. -/
theorem upcoming_dates_spec_witness :
    weekdayIndex "tuesday" = some 1
    ∧ 0 < 2
    ∧ ((upcoming_dates 1 3 2).length = 2
        ∧ List.Pairwise (· < ·) (upcoming_dates 1 3 2)
        ∧ (∀ d ∈ upcoming_dates 1 3 2, d % 7 = 1 ∧ 3 ≤ d)
        ∧ (3 % 7 = 1 → (upcoming_dates 1 3 2).head? = some 3)) :=
  ⟨by decide, by decide, upcoming_dates_spec "tuesday" 1 (by decide) 3 2 (by decide)⟩

theorem wellSpaced_fetch_aux (c : String) :
    ∀ (ds : List String) (j : Nat) (d : String),
      wellSpaced (Event.fetch c d :: clubTraceAux c (j + 1) ds) = true := by
  intro ds
  induction ds with
  | nil =>
    intro j d
    rfl
  | cons d2 ds ih =>
    intro j d
    have hstep : clubTraceAux c (j + 1) (d2 :: ds)
        = Event.sleep 2 :: Event.fetch c d2 :: clubTraceAux c (j + 1 + 1) ds := by
      simp [clubTraceAux]
    rw [hstep]
    simp only [wellSpaced, isFetch, Bool.and_false, Bool.false_and, Bool.not_false,
      Bool.true_and]
    exact ih (j + 1) d2

theorem clubTraceAux_events (c : String) :
    ∀ (ds : List String) (i : Nat) (e : Event), e ∈ clubTraceAux c i ds →
      e = Event.sleep 2 ∨ isFetch e = true := by
  intro ds
  induction ds with
  | nil =>
    intro i e he
    cases he
  | cons d ds ih =>
    intro i e he
    rcases List.mem_append.mp he with h | h
    · by_cases hi : 0 < i
      · rw [if_pos hi] at h
        exact Or.inl (List.mem_singleton.mp h)
      · rw [if_neg hi] at h
        cases h
    · rcases List.mem_cons.mp h with h | h
      · subst h
        exact Or.inr rfl
      · exact ih (i + 1) e h

/-- C8 counterexample: with two clubs and two dates, the two fetches
around the club boundary are adjacent, with no sleep between them, so
the claimed watch-wide spacing fails. -/
theorem spacing_claim_counterexample :
    watchTrace ["club-a", "club-b"] ["2025-01-07", "2025-01-14"]
      = [Event.fetch "club-a" "2025-01-07", Event.sleep 2,
          Event.fetch "club-a" "2025-01-14", Event.fetch "club-b" "2025-01-07",
          Event.sleep 2, Event.fetch "club-b" "2025-01-14"]
    ∧ wellSpaced (watchTrace ["club-a", "club-b"] ["2025-01-07", "2025-01-14"]) = false := by
  constructor
  · rfl
  · decide

/-- C8 amended: the 2-second spacing separates consecutive fetches of
the same club only — the sleep guard restarts with each club of the
watch, so the spacing is waived before the first date of every club,
not only before the first fetch of the watch's whole batch; every
sleep of a watch trace lasts at least 2 seconds, and the watch trace
is the concatenation of the per-club traces. -/
theorem spacing_per_club (clubs : List String) (club : String) (dates : List String) :
    wellSpaced (clubTrace club dates) = true
    ∧ sleepsAtLeastTwo (watchTrace clubs dates) = true
    ∧ watchTrace clubs dates = clubs.flatMap (fun c => clubTrace c dates) := by
  refine ⟨?_, ?_, rfl⟩
  · cases dates with
    | nil => rfl
    | cons d ds =>
      have hstep : clubTrace club (d :: ds)
          = Event.fetch club d :: clubTraceAux club (0 + 1) ds := by
        simp [clubTrace, clubTraceAux]
      rw [hstep]
      exact wellSpaced_fetch_aux club ds 0 d
  · apply List.all_eq_true.mpr
    intro e he
    obtain ⟨c, _, hc⟩ := List.mem_flatMap.mp he
    rcases clubTraceAux_events c dates 0 e hc with h | h
    · subst h
      rfl
    · cases e with
      | sleep u => simp [isFetch] at h
      | fetch a b => rfl

/-- C9: a `send_notification` call makes a single delivery attempt,
with a bounded (10-second) timeout and no retry, and when the attempt
fails the error is logged and swallowed: the caller receives a plain
result recording the failure, never a propagated exception, so a
dropped notification cannot abort the evaluation cycle. -/
theorem notify_single_attempt_no_raise (post : HttpRequest → Except String Nat)
    (topic title message server priority tags : String) (click_url : Option String)
    (e : String)
    (hfail : attemptPost post (mkRequest topic title message server priority tags click_url)
      = Except.error e) :
    (send_notification post topic title message server priority tags click_url).requests
      = [mkRequest topic title message server priority tags click_url]
    ∧ (mkRequest topic title message server priority tags click_url).timeout = 10
    ∧ (send_notification post topic title message server priority tags click_url).outcome
        = SendOutcome.failed e
    ∧ (send_notification post topic title message server priority tags click_url).logs
        = ["Failed to send notification: " ++ e] := by
  refine ⟨?_, rfl, ?_, ?_⟩ <;> simp [send_notification, hfail]

/-- Witness for C9: the swallowed-failure property evaluated for a
concrete always-refusing post collaborator. -/
theorem notify_single_attempt_no_raise_witness :
    attemptPost (fun _ => Except.error "connection refused")
        (mkRequest "padel-alerts" "Padel slot opened - PadelCasa Utrecht" "msg"
          "https://ntfy.sh" "high" "tennis" none)
      = Except.error "connection refused"
    ∧ ((send_notification (fun _ => Except.error "connection refused") "padel-alerts"
          "Padel slot opened - PadelCasa Utrecht" "msg" "https://ntfy.sh" "high" "tennis"
          none).requests
        = [mkRequest "padel-alerts" "Padel slot opened - PadelCasa Utrecht" "msg"
            "https://ntfy.sh" "high" "tennis" none]
      ∧ (mkRequest "padel-alerts" "Padel slot opened - PadelCasa Utrecht" "msg"
          "https://ntfy.sh" "high" "tennis" none).timeout = 10
      ∧ (send_notification (fun _ => Except.error "connection refused") "padel-alerts"
          "Padel slot opened - PadelCasa Utrecht" "msg" "https://ntfy.sh" "high" "tennis"
          none).outcome = SendOutcome.failed "connection refused"
      ∧ (send_notification (fun _ => Except.error "connection refused") "padel-alerts"
          "Padel slot opened - PadelCasa Utrecht" "msg" "https://ntfy.sh" "high" "tennis"
          none).logs = ["Failed to send notification: " ++ "connection refused"]) :=
  ⟨rfl, notify_single_attempt_no_raise (fun _ => Except.error "connection refused")
    "padel-alerts" "Padel slot opened - PadelCasa Utrecht" "msg" "https://ntfy.sh" "high"
    "tennis" none "connection refused" rfl⟩

/-- C10: the scraper's time pattern admits the single-digit-hour
label "9:00", and the window filter misjudges it chronologically:
9:00 denotes 540 minutes, inside the 08:00 (480) to 10:00 (600)
window, yet `slot_in_window` rejects it because "9:00" exceeds
"10:00" in string order. -/
theorem single_digit_hour_misfiltered :
    time_pattern_match "9:00" = true
    ∧ slot_in_window "9:00" "08:00" "10:00" = false
    ∧ strLe "9:00" "10:00" = false
    ∧ labelMinutes "9:00" = some 540
    ∧ labelMinutes "08:00" = some 480
    ∧ labelMinutes "10:00" = some 600
    ∧ (480 ≤ 540 ∧ 540 ≤ 600) := by
  decide

end PadelMonitor
